import Mathlib

/-!
A shallow embedding of the e-json / e-xml header-only C++ libraries of this
repository (src/e-json.h, src/e-xml.h).

Modelling conventions, shared by the whole file:

* A C++ `std::string` is a byte sequence; it is modelled as `List Char`
  where every `Char` stands for one byte, taken unsigned (0..255).  The
  sources only compare and branch on byte values, so this is faithful; the
  inputs used in concrete theorems are ASCII, where byte = code point.
* `std::map<std::string, T>` is modelled as an association list kept
  sorted by the strict lexicographic byte order `lexLt`; `mapInsert` plays
  the role of `map[key] = value` (insert in order, overwrite on equal key)
  and `mapFind` the role of `map.find`.
* The recursive-descent parsers of the sources advance a cursor index into
  a fixed buffer; here each grammar function consumes a `List Char` and
  returns the unconsumed suffix.  Loops whose termination Lean cannot see
  structurally are written with an explicit fuel argument; the public
  wrappers pass fuel larger than the input length, so the fuel never runs
  out on the wrapped calls and every closed application reduces by `rfl`.
* C++ `double` is modelled as `ℚ`: `std::stod` of a literal that matched
  the JSON number grammar is taken at its exact decimal value, and the
  `std::setprecision` fallback branch of number printing is modelled by
  `fmtGeneral`.  No theorem below depends on either choice.
* C++ exceptions (`JSONParseError`, `XMLParseError`, `std::invalid_argument`
  and `std::out_of_range` from `std::stoi`) become `Except String`; the
  positional decoration that `JSON::parse` adds to messages is dropped,
  which only changes the message text, never ok-versus-error.
-/

/-! ### Byte-level character classes (C locale, as used by `<cctype>`) -/

/-- `std::isdigit` on a byte. -/
def isDigitC (c : Char) : Bool := decide ('0' ≤ c ∧ c ≤ '9')

/-- `std::isalpha` on a byte (C locale). -/
def isAlphaC (c : Char) : Bool :=
  decide (('a' ≤ c ∧ c ≤ 'z') ∨ ('A' ≤ c ∧ c ≤ 'Z'))

/-- `std::isalnum` on a byte (C locale). -/
def isAlnumC (c : Char) : Bool := isAlphaC c || isDigitC c

/-- `std::isspace` on a byte (C locale): space, \t, \n, \v, \f, \r. -/
def isSpaceC (c : Char) : Bool :=
  decide (c = ' ' ∨ c = '\t' ∨ c = '\n' ∨ c = '\x0b' ∨ c = '\x0c' ∨ c = '\r')

/-- Hexadecimal digit test, as accepted by `std::stoi(_, _, 16)`. -/
def isHexC (c : Char) : Bool :=
  isDigitC c || decide (('a' ≤ c ∧ c ≤ 'f') ∨ ('A' ≤ c ∧ c ≤ 'F'))

/-- Numeric value of one hexadecimal digit. -/
def hexDigitVal (c : Char) : Nat :=
  if isDigitC c then c.toNat - 48
  else if decide ('a' ≤ c ∧ c ≤ 'f') then c.toNat - 87
  else if decide ('A' ≤ c ∧ c ≤ 'F') then c.toNat - 55
  else 0

/-- Value of a decimal digit string (most significant first). -/
def digitsVal (ds : List Char) : Nat :=
  ds.foldl (fun acc c => 10 * acc + (c.toNat - 48)) 0

/-- Value of a hexadecimal digit string (most significant first). -/
def hexVal (ds : List Char) : Nat :=
  ds.foldl (fun acc c => 16 * acc + hexDigitVal c) 0

/-! ### The `std::string` order and the `std::map` model -/

/-- Strict lexicographic order on byte strings: the comparison
`std::map<std::string, _>` sorts its keys by. -/
def lexLt : List Char → List Char → Bool
  | [], [] => false
  | [], _ :: _ => true
  | _ :: _, [] => false
  | a :: as, b :: bs =>
    if a.toNat < b.toNat then true
    else if b.toNat < a.toNat then false
    else lexLt as bs

/-- `map.find(key)`: first (unique) entry with the given key. -/
def mapFind {α : Type} : List (List Char × α) → List Char → Option α
  | [], _ => none
  | (k, v) :: rest, key => if k = key then some v else mapFind rest key

/-- `map[key] = value`: insert at the sorted position, overwriting the value
when the key is already present (the stored key object is kept, as
`std::map` does; it is equal to the inserted one anyway). -/
def mapInsert {α : Type} (key : List Char) (val : α) :
    List (List Char × α) → List (List Char × α)
  | [] => [(key, val)]
  | (k, v) :: rest =>
    if lexLt key k then (key, val) :: (k, v) :: rest
    else if lexLt k key then (k, v) :: mapInsert key val rest
    else (k, val) :: rest

/-- The `std::map` representation invariant: keys strictly increasing. -/
def SortedKeys {α : Type} (l : List (List Char × α)) : Prop :=
  List.Pairwise (fun a b => lexLt a.1 b.1 = true) l

/-- `n` spaces, i.e. `std::string(n, ' ')`. -/
def spacesL (n : Nat) : List Char := List.replicate n ' '

/-- Comma-prefixed concatenation: what the `first = false` tail of the
serializer loops emits (specification helper for the ordering theorems). -/
def joinComma : List (List Char) → List Char
  | [] => []
  | a :: r => ',' :: (a ++ joinComma r)

/-- Comma-separated concatenation, the overall shape those loops emit. -/
def commaSep : List (List Char) → List Char
  | [] => []
  | a :: r => a ++ joinComma r

/-! ### The JSON value model (`ejson::JSON`, a tagged union over six shapes) -/

/-- `ejson::JSONValue`: null / bool / number (double, modelled as `ℚ`) /
string (bytes) / array / object (sorted map). -/
inductive JSON where
  | null
  | bool (b : Bool)
  | number (q : ℚ)
  | str (s : List Char)
  | arr (elems : List JSON)
  | obj (entries : List (List Char × JSON))

/-- `is_null`. -/
def JSON.isNullB : JSON → Bool
  | .null => true
  | _ => false

/-- `keys()`: the object keys in iteration (stored) order; non-objects
give the empty list. -/
def JSON.keysL : JSON → List (List Char)
  | .obj kvs => kvs.map (fun e => e.1)
  | _ => []

/-! ### JSON serialization (`JSON::dump`) -/

/-- Decimal digit characters of a natural number, most significant first. -/
def natDigits (n : Nat) : List Char := (Nat.toDigits 10 n)

/-- `long long` printing of an integer, as `operator<<` renders it. -/
def intChars (i : Int) : List Char :=
  if i < 0 then '-' :: natDigits i.natAbs else natDigits i.natAbs

/-- Models the fallback branch of number serialization, the stream output
`oss << std::setprecision(max_precision) << std::noshowpoint << num` of a
double that is not an exact integer: up to `prec` significant digits,
trailing zeros stripped, scientific notation when the decimal exponent is
below `-4` or at least `prec` (default-float formatting).  This is an
idealized rendering of the double; no theorem in this file depends on
this branch. -/
def fmtGeneral (q : ℚ) (prec : Nat) : List Char :=
  if q = 0 then ['0']
  else
    let sgn : List Char := if q < 0 then ['-'] else []
    let aq : ℚ := |q|
    let a : Int := (natDigits q.num.natAbs).length
    let b : Int := (natDigits q.den).length
    let e0 : Int := a - b
    let e : Int := if aq < (10 : ℚ) ^ e0 then e0 - 1 else e0
    let p : Int := (prec : Int) - 1 - e
    let m : Nat := (aq * (10 : ℚ) ^ p + 1/2).floor.toNat
    let ds : List Char := natDigits m
    let core : List Char := (ds.reverse.dropWhile (· = '0')).reverse
    let core : List Char := if core = [] then ['0'] else core
    if e < -4 ∨ (prec : Int) ≤ e then
      let mant : List Char :=
        match core with
        | [] => ['0']
        | d :: [] => [d]
        | d :: rest => d :: '.' :: rest
      let esgn : List Char := if e < 0 then ['-'] else ['+']
      let eabs := e.natAbs
      let edig := natDigits eabs
      let edig := if edig.length < 2 then '0' :: edig else edig
      sgn ++ mant ++ 'e' :: (esgn ++ edig)
    else if 0 ≤ e then
      let k := e.toNat + 1
      if core.length ≤ k then sgn ++ core ++ List.replicate (k - core.length) '0'
      else sgn ++ core.take k ++ '.' :: core.drop k
    else
      sgn ++ '0' :: '.' :: (List.replicate (e + 1).natAbs '0' ++ core)

/-- The number branch of `dump`: an exact integer in the `long long` range
prints as an integer, anything else through the stream formatting. -/
def dumpNumber (q : ℚ) (prec : Nat) : List Char :=
  if q.den = 1 ∧ -(2 ^ 63 : Int) ≤ q.num ∧ q.num ≤ 2 ^ 63 - 1 then intChars q.num
  else fmtGeneral q prec

/-- The string branch of `dump`: escape `" \ \b \f \n \r \t`, render other
bytes below 32 (and byte 127) as `\u00XX` (lowercase hex, width 4), copy
everything else verbatim. -/
def escapeStringBody : List Char → List Char
  | [] => []
  | c :: rest =>
    (if c = '"' then ['\\', '"']
     else if c = '\\' then ['\\', '\\']
     else if c = '\x08' then ['\\', 'b']
     else if c = '\x0c' then ['\\', 'f']
     else if c = '\n' then ['\\', 'n']
     else if c = '\r' then ['\\', 'r']
     else if c = '\t' then ['\\', 't']
     else if c.toNat < 32 ∨ c.toNat = 127 then
       let h := Nat.toDigits 16 c.toNat
       '\\' :: 'u' :: (List.replicate (4 - h.length) '0' ++ h)
     else [c]) ++ escapeStringBody rest

mutual

/-- `JSON::dump(pretty, indent, indent_size, max_precision)`, producing the
output byte sequence. -/
def JSON.dump : JSON → Bool → Nat → Nat → Nat → List Char
  | .null, _, _, _, _ => ('n' :: 'u' :: 'l' :: 'l' :: [])
  | .bool b, _, _, _, _ =>
    if b then ('t' :: 'r' :: 'u' :: 'e' :: []) else ('f' :: 'a' :: 'l' :: 's' :: 'e' :: [])
  | .number q, _, _, _, prec => dumpNumber q prec
  | .str s, _, _, _, _ => '"' :: (escapeStringBody s ++ ['"'])
  | .arr xs, pretty, ind, isz, prec =>
    '[' :: (dumpArrGo true xs pretty ind isz prec
      ++ (if pretty && !xs.isEmpty then '\n' :: spacesL ind else [])
      ++ [']'])
  | .obj kvs, pretty, ind, isz, prec =>
    '{' :: (dumpObjGo true kvs pretty ind isz prec
      ++ (if pretty && !kvs.isEmpty then '\n' :: spacesL ind else [])
      ++ ['}'])

/-- The element loop of the array branch of `dump` (`first` comma flag). -/
def dumpArrGo : Bool → List JSON → Bool → Nat → Nat → Nat → List Char
  | _, [], _, _, _, _ => []
  | first, e :: rest, pretty, ind, isz, prec =>
    (if first then [] else [','])
      ++ (if pretty then '\n' :: spacesL (ind + isz) else [])
      ++ JSON.dump e pretty (ind + isz) isz prec
      ++ dumpArrGo false rest pretty ind isz prec

/-- The entry loop of the object branch of `dump`.  Note that the key is
emitted verbatim between quotes, without escaping. -/
def dumpObjGo : Bool → List (List Char × JSON) → Bool → Nat → Nat → Nat → List Char
  | _, [], _, _, _, _ => []
  | first, (k, v) :: rest, pretty, ind, isz, prec =>
    (if first then [] else [','])
      ++ (if pretty then '\n' :: spacesL (ind + isz) else [])
      ++ '"' :: (k ++ '"' :: ':' :: (if pretty then [' '] else []))
      ++ JSON.dump v pretty (ind + isz) isz prec
      ++ dumpObjGo false rest pretty ind isz prec

end

/-! ### JSON parsing (`JSON::parse` and its grammar rules) -/

/-- `skip_ws`: drop leading whitespace. -/
def skipWs (s : List Char) : List Char := s.dropWhile isSpaceC

/-- `std::stoi(ds)` on a string that is a (possibly empty) run of decimal
digits, as produced by the path scanners: `std::invalid_argument` when
there is no digit, `std::out_of_range` when the value exceeds `INT_MAX`. -/
def stoiDec (ds : List Char) : Except String Nat :=
  if ds.isEmpty then .error "stoi: invalid argument"
  else if 2147483647 < digitsVal ds then .error "stoi: out of range"
  else .ok (digitsVal ds)

/-- `std::stoi(t, nullptr, 16)` on the four characters `substr(idx, 4)`:
the maximal leading run of hexadecimal digits is converted; no digit at
all is `std::invalid_argument`.  (The `0x`-prefix and sign forms `stoi`
would also accept cannot reach four converted digits here and are not
modelled.) -/
def stoiHex4 (t : List Char) : Except String Nat :=
  let ds := t.takeWhile isHexC
  if ds.isEmpty then .error "stoi: invalid argument" else .ok (hexVal ds)

/-- `encode_utf8`: append the UTF-8 bytes of a code point (1-4 bytes by
range; silently appends nothing above 0x10FFFF, as the source's
if-chain has no else branch). -/
def encodeUTF8 (acc : List Char) (cp : Nat) : List Char :=
  if cp ≤ 0x7F then acc ++ [Char.ofNat cp]
  else if cp ≤ 0x7FF then
    acc ++ [Char.ofNat (0xC0 ||| (cp >>> 6)), Char.ofNat (0x80 ||| (cp &&& 0x3F))]
  else if cp ≤ 0xFFFF then
    acc ++ [Char.ofNat (0xE0 ||| (cp >>> 12)), Char.ofNat (0x80 ||| ((cp >>> 6) &&& 0x3F)),
            Char.ofNat (0x80 ||| (cp &&& 0x3F))]
  else if cp ≤ 0x10FFFF then
    acc ++ [Char.ofNat (0xF0 ||| (cp >>> 18)), Char.ofNat (0x80 ||| ((cp >>> 12) &&& 0x3F)),
            Char.ofNat (0x80 ||| ((cp >>> 6) &&& 0x3F)), Char.ofNat (0x80 ||| (cp &&& 0x3F))]
  else acc

/-- The UTF-16 surrogate-pair combination of `parse_string`:
`0x10000 + ((hi - 0xD800) << 10 | (lo - 0xDC00))`. -/
def surrogateCombine (hi lo : Nat) : Nat :=
  0x10000 + (((hi - 0xD800) <<< 10) ||| (lo - 0xDC00))

/-- The character loop of `parse_string`, entered just past the opening
quote, accumulating decoded bytes.  Exceptions thrown inside the
`try`-block of the `\u` branch (bad hex, lone or ill-formed surrogates)
are caught there and rethrown as "Invalid unicode escape sequence",
which is modelled by producing that error directly.  When the input ends
without a closing quote the source's `idx > s.size()` guard does not
fire (the cursor never passes the end), so the accumulated bytes are
returned as if the string had been terminated. -/
def parseStringGo : List Char → List Char → Except String (List Char × List Char)
  | acc, [] => .ok (acc, [])
  | acc, c :: rest =>
    if c = '"' then .ok (acc, rest)
    else if c = '\\' then
      match rest with
      | [] => .error "Invalid escape: unexpected end of string"
      | e :: rest2 =>
        if e = '"' then parseStringGo (acc ++ ['"']) rest2
        else if e = '\\' then parseStringGo (acc ++ ['\\']) rest2
        else if e = '/' then parseStringGo (acc ++ ['/']) rest2
        else if e = 'b' then parseStringGo (acc ++ ['\x08']) rest2
        else if e = 'f' then parseStringGo (acc ++ ['\x0c']) rest2
        else if e = 'n' then parseStringGo (acc ++ ['\n']) rest2
        else if e = 'r' then parseStringGo (acc ++ ['\r']) rest2
        else if e = 't' then parseStringGo (acc ++ ['\t']) rest2
        else if e = 'u' then
          match rest2 with
          | h1 :: h2 :: h3 :: h4 :: rest3 =>
            match stoiHex4 [h1, h2, h3, h4] with
            | .error _ => .error "Invalid unicode escape sequence"
            | .ok cp =>
              if 0xD800 ≤ cp ∧ cp ≤ 0xDBFF then
                match rest3 with
                | b1 :: u1 :: l1 :: l2 :: l3 :: l4 :: rest4 =>
                  if b1 = '\\' ∧ u1 = 'u' then
                    match stoiHex4 [l1, l2, l3, l4] with
                    | .error _ => .error "Invalid unicode escape sequence"
                    | .ok lo =>
                      if lo < 0xDC00 ∨ 0xDFFF < lo then
                        .error "Invalid unicode escape sequence"
                      else parseStringGo (encodeUTF8 acc (surrogateCombine cp lo)) rest4
                  else .error "Invalid unicode escape sequence"
                | _ => .error "Invalid unicode escape sequence"
              else if 0xDC00 ≤ cp ∧ cp ≤ 0xDFFF then
                .error "Invalid unicode escape sequence"
              else parseStringGo (encodeUTF8 acc cp) rest3
          | _ => .error "Invalid unicode escape"
        else .error "Unknown escape sequence"
    else if c.toNat < 32 then .error "Unescaped control character in string"
    else parseStringGo (acc ++ [c]) rest

/-- `parse_string`: expects the opening quote at the cursor. -/
def parseStringC (s : List Char) : Except String (List Char × List Char) :=
  match s with
  | '"' :: rest => parseStringGo [] rest
  | _ => .error "Expected string"

/-- The exact value of the decimal literal the number grammar matched:
`std::stod` idealized without rounding to binary (no theorem depends on
the numeric value this produces). -/
def stodExact (neg : Bool) (ip fp : List Char) (eneg : Bool) (ep : List Char) : ℚ :=
  let m : ℚ := (digitsVal (ip ++ fp) : ℚ) / (10 : ℚ) ^ fp.length
  let ex : ℚ := if eneg then 1 / (10 : ℚ) ^ digitsVal ep else (10 : ℚ) ^ digitsVal ep
  (if neg then -1 else 1) * m * ex

/-- The exponent part of `parse_number`: optional `e`/`E`, optional sign,
then at least one digit. -/
def parseNumExp (neg : Bool) (ip fp : List Char) (s : List Char) :
    Except String (JSON × List Char) :=
  match s with
  | 'e' :: s1 | 'E' :: s1 =>
    let (eneg, s2) : Bool × List Char :=
      match s1 with
      | '+' :: r => (false, r)
      | '-' :: r => (true, r)
      | _ => (false, s1)
    match s2 with
    | c :: _ =>
      if isDigitC c then
        .ok (JSON.number (stodExact neg ip fp eneg (s2.takeWhile isDigitC)),
             s2.dropWhile isDigitC)
      else .error "Invalid number: missing digits in exponent"
    | [] => .error "Invalid number: missing digits in exponent"
  | _ => .ok (JSON.number (stodExact neg ip fp false []), s)

/-- The fraction part of `parse_number`: optional `.` followed by at least
one digit, then the exponent part. -/
def parseNumFrac (neg : Bool) (ip : List Char) (s : List Char) :
    Except String (JSON × List Char) :=
  match s with
  | '.' :: s1 =>
    match s1 with
    | c :: _ =>
      if isDigitC c then
        parseNumExp neg ip (s1.takeWhile isDigitC) (s1.dropWhile isDigitC)
      else .error "Invalid number: missing digits after decimal point"
    | [] => .error "Invalid number: missing digits after decimal point"
  | _ => parseNumExp neg ip [] s

/-- `parse_number`: optional `-`; integer part a single `0` or a non-zero
digit followed by digits; then fraction and exponent parts. -/
def parseNumberC (s : List Char) : Except String (JSON × List Char) :=
  let (neg, s1) : Bool × List Char :=
    match s with
    | '-' :: r => (true, r)
    | _ => (false, s)
  match s1 with
  | [] => .error "Invalid number"
  | d :: s2 =>
    if isDigitC d then
      if d = '0' then parseNumFrac neg ['0'] s2
      else parseNumFrac neg (s1.takeWhile isDigitC) (s1.dropWhile isDigitC)
    else .error "Invalid number"

/-- `parse_null`. -/
def parseNullC : List Char → Except String (JSON × List Char)
  | 'n' :: 'u' :: 'l' :: 'l' :: rest => .ok (JSON.null, rest)
  | _ => .error "Invalid null"

/-- `parse_bool`. -/
def parseBoolC : List Char → Except String (JSON × List Char)
  | 't' :: 'r' :: 'u' :: 'e' :: rest => .ok (JSON.bool true, rest)
  | 'f' :: 'a' :: 'l' :: 's' :: 'e' :: rest => .ok (JSON.bool false, rest)
  | _ => .error "Invalid boolean"

mutual

/-- `parse_value`: dispatch on the first non-whitespace character. -/
def parseValueF : Nat → List Char → Except String (JSON × List Char)
  | 0, _ => .error "fuel exhausted"
  | f + 1, s =>
    let s1 := skipWs s
    match s1 with
    | [] => .error "Unexpected end of input"
    | c :: _ =>
      if c = 'n' then parseNullC s1
      else if c = 't' ∨ c = 'f' then parseBoolC s1
      else if c = '"' then
        match parseStringC s1 with
        | .error e => .error e
        | .ok (str, rest) => .ok (JSON.str str, rest)
      else if c = '[' then parseArrayF f s1
      else if c = '{' then parseObjectF f s1
      else if c = '-' ∨ isDigitC c then parseNumberC s1
      else .error "Unexpected character"

/-- `parse_array`: the cursor is at `[`. -/
def parseArrayF : Nat → List Char → Except String (JSON × List Char)
  | 0, _ => .error "fuel exhausted"
  | f + 1, s =>
    let s1 := skipWs s.tail
    match s1 with
    | ']' :: rest => .ok (JSON.arr [], rest)
    | _ => parseArrayLoopF f [] s1

/-- The element loop of `parse_array`. -/
def parseArrayLoopF : Nat → List JSON → List Char → Except String (JSON × List Char)
  | 0, _, _ => .error "fuel exhausted"
  | f + 1, acc, s =>
    match parseValueF f s with
    | .error e => .error e
    | .ok (v, r1) =>
      match skipWs r1 with
      | [] => .error "Expected ',' or ']'"
      | ',' :: r2 => parseArrayLoopF f (acc ++ [v]) (skipWs r2)
      | ']' :: r2 => .ok (JSON.arr (acc ++ [v]), r2)
      | _ => .error "Unexpected character in array"

/-- `parse_object`: the cursor is at `{`. -/
def parseObjectF : Nat → List Char → Except String (JSON × List Char)
  | 0, _ => .error "fuel exhausted"
  | f + 1, s =>
    let s1 := skipWs s.tail
    match s1 with
    | '}' :: rest => .ok (JSON.obj [], rest)
    | _ => parseObjectLoopF f [] s1

/-- The entry loop of `parse_object`; `obj[key] = val` is the sorted-map
insertion, so duplicate keys overwrite (last write wins). -/
def parseObjectLoopF : Nat → List (List Char × JSON) → List Char →
    Except String (JSON × List Char)
  | 0, _, _ => .error "fuel exhausted"
  | f + 1, acc, s =>
    match skipWs s with
    | '"' :: srest =>
      match parseStringGo [] srest with
      | .error e => .error e
      | .ok (key, r1) =>
        match skipWs r1 with
        | ':' :: r2 =>
          match parseValueF f r2 with
          | .error e => .error e
          | .ok (v, r3) =>
            let acc1 := mapInsert key v acc
            match skipWs r3 with
            | [] => .error "Expected comma or closing brace in object"
            | ',' :: r4 => parseObjectLoopF f acc1 (skipWs r4)
            | '}' :: r4 => .ok (JSON.obj acc1, r4)
            | _ => .error "Unexpected character in object"
        | _ => .error "Expected ':' after key in object"
    | _ => .error "Expected string key in object"

end

/-- `JSON::parse`: parse one value, then require only whitespace to
remain.  The fuel bound is generous; every recursive step of the
grammar consumes input, so it cannot run out on any input. -/
def JSON.parse (s : String) : Except String JSON :=
  let cs := s.data
  match parseValueF (2 * cs.length + 2) cs with
  | .error e => .error e
  | .ok (v, rest) =>
    if (skipWs rest).isEmpty then .ok v
    else .error "Extra characters after JSON"

/-! ### JSON path addressing (`at_path`, `set_path`, `has_path`) -/

/-- Continuation characters of a path identifier segment:
`std::isalnum(c) || c == '_'`. -/
def identContC (c : Char) : Bool := isAlnumC c || c = '_'

/-- The walking loop of `at_path`.  One fuel unit per loop iteration; the
wrapper passes more fuel than there are path characters, and every
iteration consumes at least one, so fuel cannot run out there.  The loop
interleaves path scanning with the walk: a missing key, a wrong variant
or an out-of-range index returns Null at once, without scanning the rest
of the path; malformed segment syntax (and `std::stoi` failure on the
bracket digits) raises the error only when the walk reaches it. -/
def atPathGo : Nat → JSON → List Char → Except String JSON
  | 0, _, _ => .error "fuel exhausted"
  | f + 1, cur, cs =>
    match cs with
    | [] => .ok cur
    | c :: rest =>
      if c = '.' then atPathGo f cur rest
      else if isAlphaC c ∨ c = '_' then
        let key := cs.takeWhile identContC
        let rest1 := cs.dropWhile identContC
        match cur with
        | .obj kvs =>
          match mapFind kvs key with
          | some v => atPathGo f v rest1
          | none => .ok JSON.null
        | _ => .ok JSON.null
      else if c = '[' then
        let ds := rest.takeWhile isDigitC
        match rest.dropWhile isDigitC with
        | ']' :: rest1 =>
          match stoiDec ds with
          | .error e => .error e
          | .ok n =>
            match cur with
            | .arr xs =>
              if h : n < xs.length then atPathGo f (xs.get ⟨n, h⟩) rest1
              else .ok JSON.null
            | _ => .ok JSON.null
        | _ => .error "Expected closing bracket"
      else .error "Invalid character in path"

/-- `at_path`. -/
def JSON.atPath (v : JSON) (p : String) : Except String JSON :=
  atPathGo (p.data.length + 1) v p.data

/-- One parsed segment of a `set_path` path: the source stores the pair
`(key, -1)` for an identifier and `("", idx)` for a bracketed index. -/
inductive Seg where
  | key (k : List Char)
  | idx (n : Nat)

/-- The first phase of `set_path`: parse the whole path into segments
(with the same scanners and `std::stoi` behavior as `at_path`). -/
def parseSegsF : Nat → List Char → Except String (List Seg)
  | 0, _ => .error "fuel exhausted"
  | f + 1, cs =>
    match cs with
    | [] => .ok []
    | c :: rest =>
      if c = '.' then parseSegsF f rest
      else if isAlphaC c ∨ c = '_' then
        let key := cs.takeWhile identContC
        match parseSegsF f (cs.dropWhile identContC) with
        | .error e => .error e
        | .ok segs => .ok (Seg.key key :: segs)
      else if c = '[' then
        let ds := rest.takeWhile isDigitC
        match rest.dropWhile isDigitC with
        | ']' :: rest1 =>
          match stoiDec ds with
          | .error e => .error e
          | .ok n =>
            match parseSegsF f rest1 with
            | .error e => .error e
            | .ok segs => .ok (Seg.idx n :: segs)
        | _ => .error "Expected closing bracket"
      else .error "Invalid character in path"

/-- `std::vector::resize(n)` on a JSON array: pad with Null up to length
`n` (never shrinks here, the caller only grows). -/
def resizeTo (xs : List JSON) (n : Nat) : List JSON :=
  xs ++ List.replicate (n - xs.length) JSON.null

/-- The second phase of `set_path`: walk the parsed segments, vivifying a
Null into an empty object or array as each segment requires, erroring on
a populated value of the wrong variant, and assigning at the last
segment.  The source mutates the tree in place through a pointer; this
functional version rebuilds the spine, which is observably identical on
every path that does not throw mid-walk. -/
def setSegs : List Seg → JSON → JSON → Except String JSON
  | [], cur, _ => .ok cur
  | seg :: rest, cur, val =>
    match seg with
    | .key k =>
      let cur1 := match cur with | .null => JSON.obj [] | other => other
      match cur1 with
      | .obj kvs =>
        match rest with
        | [] => .ok (JSON.obj (mapInsert k val kvs))
        | _ :: _ =>
          let child := (mapFind kvs k).getD JSON.null
          match setSegs rest child val with
          | .error e => .error e
          | .ok child1 => .ok (JSON.obj (mapInsert k child1 kvs))
      | _ => .error "Expected object in path"
    | .idx n =>
      let cur1 := match cur with | .null => JSON.arr [] | other => other
      match cur1 with
      | .arr xs =>
        let xs1 := if xs.length ≤ n then resizeTo xs (n + 1) else xs
        match rest with
        | [] => .ok (JSON.arr (xs1.set n val))
        | _ :: _ =>
          let child := (xs1.getD n JSON.null)
          match setSegs rest child val with
          | .error e => .error e
          | .ok child1 => .ok (JSON.arr (xs1.set n child1))
      | _ => .error "Expected array in path"

/-- `set_path`. -/
def JSON.setPath (v : JSON) (p : String) (val : JSON) : Except String JSON :=
  match parseSegsF (p.data.length + 1) p.data with
  | .error e => .error e
  | .ok segs => setSegs segs v val

/-- `has_path`: `!at_path(path).is_null()`; errors of `at_path`
propagate. -/
def JSON.hasPath (v : JSON) (p : String) : Except String Bool :=
  match v.atPath p with
  | .error e => .error e
  | .ok r => .ok (!r.isNullB)

/-- Well-formed path syntax, as the scanning loop of `at_path` accepts it:
dots are skipped, a segment is an identifier (`isalpha`/`_` head,
`isalnum`/`_` continuation) or `[digits]` with at least one digit whose
value fits `int` (so that `std::stoi` cannot throw). -/
def pathOKGo : Nat → List Char → Bool
  | 0, _ => false
  | f + 1, cs =>
    match cs with
    | [] => true
    | c :: rest =>
      if c = '.' then pathOKGo f rest
      else if isAlphaC c ∨ c = '_' then pathOKGo f (cs.dropWhile identContC)
      else if c = '[' then
        let ds := rest.takeWhile isDigitC
        match rest.dropWhile isDigitC with
        | ']' :: rest1 =>
          !ds.isEmpty && digitsVal ds ≤ 2147483647 && pathOKGo f rest1
        | _ => false
      else false

/-- Well-formed path syntax (wrapper). -/
def pathOK (p : String) : Bool := pathOKGo (p.data.length + 1) p.data

/-- The first segment of the path (after leading dots) is syntactically
malformed: it starts with a character that is neither an identifier head
nor `[`, or it is a bracket without a properly placed `]`, or an empty
bracket `[]` (on which `std::stoi` throws). -/
def firstSegBad : List Char → Bool
  | [] => false
  | c :: rest =>
    if c = '.' then firstSegBad rest
    else if isAlphaC c ∨ c = '_' then false
    else if c = '[' then
      match rest.dropWhile isDigitC with
      | ']' :: _ => (rest.takeWhile isDigitC).isEmpty
      | _ => true
    else true

/-! ### The XML node model (`exml::Node`) -/

/-- `exml::Node`: tag name, accumulated decoded text, attribute map
(sorted), ordered children. -/
structure Node where
  name : List Char
  text_content : List Char
  attributes : List (List Char × List Char)
  child_nodes : List Node

/-- `parse_entity`: the five standard entities; anything else passes
through literally as `&name;`. -/
def parseEntity (e : List Char) : List Char :=
  if e = "lt".data then ['<']
  else if e = "gt".data then ['>']
  else if e = "amp".data then ['&']
  else if e = "quot".data then ['"']
  else if e = "apos".data then [Char.ofNat 39]
  else '&' :: (e ++ [';'])

/-- The scanning loop of `decode_text`: on `&`, look for the next `;`;
found, decode the entity between them; not found, keep the `&` and move
one character (malformed entity). -/
def decodeTextGo : Nat → List Char → List Char → List Char
  | 0, acc, _ => acc
  | _ + 1, acc, [] => acc
  | f + 1, acc, c :: rest =>
    if c = '&' then
      match rest.dropWhile (· ≠ ';') with
      | ';' :: after => decodeTextGo f (acc ++ parseEntity (rest.takeWhile (· ≠ ';'))) after
      | _ => decodeTextGo f (acc ++ ['&']) rest
    else decodeTextGo f (acc ++ [c]) rest

/-- `decode_text`. -/
def decodeText (t : List Char) : List Char := decodeTextGo (t.length + 1) [] t

/-- `encode_text`: the five standard substitutions. -/
def encodeText : List Char → List Char
  | [] => []
  | c :: rest =>
    (if c = '<' then "&lt;".data
     else if c = '>' then "&gt;".data
     else if c = '&' then "&amp;".data
     else if c = '"' then "&quot;".data
     else if c.toNat = 39 then "&apos;".data
     else [c]) ++ encodeText rest

/-- Tag-name characters: `isalnum`, `_`, `:`, `-`. -/
def nameC (c : Char) : Bool := isAlnumC c || c = '_' || c = ':' || c = '-'

/-- Attribute-key characters: `isalnum`, `_`, `:` (no `-`, unlike tag
names). -/
def attrKeyC (c : Char) : Bool := isAlnumC c || c = '_' || c = ':'

/-- The attribute loop of `parse_node`: runs until `>`, `/` or the end of
input (the caller reports "Unclosed tag" on the latter); each attribute
is `key = "value"` or `key = 'value'`, the value entity-decoded and
stored through the sorted map.  An unterminated value consumes the rest
of the input (the source's cursor steps one past the end, which the
following checks treat as end of input). -/
def parseAttrsF : Nat → List (List Char × List Char) → List Char →
    Except String (List (List Char × List Char) × List Char)
  | 0, _, _ => .error "fuel exhausted"
  | f + 1, attrs, s =>
    match s with
    | [] => .ok (attrs, [])
    | c :: _ =>
      if c = '>' ∨ c = '/' then .ok (attrs, s)
      else
        let key := s.takeWhile attrKeyC
        match skipWs (s.dropWhile attrKeyC) with
        | '=' :: s2 =>
          match skipWs s2 with
          | q :: s3 =>
            if q = '"' ∨ q.toNat = 39 then
              let v := s3.takeWhile (· ≠ q)
              let s4 := match s3.dropWhile (· ≠ q) with
                        | _ :: s5 => s5
                        | [] => []
              parseAttrsF f (mapInsert key (decodeText v) attrs) (skipWs s4)
            else .error "Attribute value must be quoted"
          | [] => .error "Attribute value must be quoted"
        | _ => .error "Expected '=' after attribute key"

/-- `skip_ws_and_prolog`: before the root element, skip whitespace and
`<?...?>` / `<!...>` constructs up to their next `>`. -/
def skipPrologF : Nat → List Char → Except String (List Char)
  | 0, _ => .error "fuel exhausted"
  | f + 1, s =>
    let s1 := skipWs s
    match s1 with
    | '<' :: c :: rest =>
      if c = '?' ∨ c = '!' then
        match rest.dropWhile (· ≠ '>') with
        | '>' :: after => skipPrologF f after
        | _ => .error "Unclosed prolog/comment"
      else .ok s1
    | _ => .ok s1

/-- Append the pending text run, entity-decoded, to the accumulated text;
nothing is appended for an empty run (`if (idx > content_start)`). -/
def flushRun (txt run : List Char) : List Char :=
  if run.isEmpty then txt else txt ++ decodeText run

mutual

/-- `parse_node`: `<`, tag name, attributes, then either `/>` or `>`
content `</name>`.  The closing-tag name is whatever stands before the
next `>` and must equal the opening name. -/
def parseNodeF : Nat → List Char → Except String (Node × List Char)
  | 0, _ => .error "fuel exhausted"
  | f + 1, s =>
    match skipWs s with
    | '<' :: s1 =>
      let nm := s1.takeWhile nameC
      let s2 := skipWs (s1.dropWhile nameC)
      match parseAttrsF (s2.length + 1) [] s2 with
      | .error e => .error e
      | .ok (attrs, s3) =>
        match s3 with
        | [] => .error "Unclosed tag"
        | '/' :: s4 =>
          match s4 with
          | '>' :: s5 => .ok (⟨nm, [], attrs, []⟩, s5)
          | _ => .error "Expected '>' for self-closing tag"
        | '>' :: s4 =>
          match parseContentF f [] [] [] s4 with
          | .error e => .error e
          | .ok ((txt, kids), s5) =>
            match s5 with
            | '<' :: '/' :: s6 =>
              let cn := s6.takeWhile (· ≠ '>')
              if cn = nm then
                match s6.dropWhile (· ≠ '>') with
                | _ :: s8 => .ok (⟨nm, txt, attrs, kids⟩, s8)
                | [] => .ok (⟨nm, txt, attrs, kids⟩, [])
              else .error "Mismatched closing tag"
            | _ => .error "Expected closing tag"
        | _ => .error "Expected '>' to close tag opening"
    | _ => .error "Expected '<' to start a node"

/-- The content loop of `parse_node`: whitespace is folded into the
pending text run; at `</` the loop stops (flushing the pending run); at
any other `<` the pending run is flushed into `text_content` and a child
is parsed recursively; any other character extends the pending run.  All
text runs therefore land, entity-decoded, concatenated in encounter
order in the single `text_content` field, and nothing records where they
stood relative to the children. -/
def parseContentF : Nat → List Char → List Node → List Char → List Char →
    Except String ((List Char × List Node) × List Char)
  | 0, _, _, _, _ => .error "fuel exhausted"
  | f + 1, txt, kids, run, rest =>
    let ws := rest.takeWhile isSpaceC
    let rest1 := rest.dropWhile isSpaceC
    let run1 := run ++ ws
    match rest1 with
    | '<' :: '/' :: r2 => .ok ((flushRun txt run1, kids), '<' :: '/' :: r2)
    | '<' :: _ =>
      match parseNodeF f rest1 with
      | .error e => .error e
      | .ok (child, r2) => parseContentF f (flushRun txt run1) (kids ++ [child]) [] r2
    | c :: r2 => parseContentF f txt kids (run1 ++ [c]) r2
    | [] => .ok ((flushRun txt run1, kids), [])

end

/-- `Node::parse`: skip the prolog, parse the root element, then require
only whitespace to remain. -/
def Node.parse (s : String) : Except String Node :=
  let cs := s.data
  match skipPrologF (cs.length + 1) cs with
  | .error e => .error e
  | .ok s1 =>
    match parseNodeF (2 * cs.length + 2) s1 with
    | .error e => .error e
    | .ok (n, rest) =>
      if (skipWs rest).isEmpty then .ok n
      else .error "Extra characters after root element"

/-! ### XML serialization (`Node::dump` via `dump_recursive`) -/

/-- The attribute output of `dump_recursive`: one ` key="value"` per
stored entry, in stored (sorted) order, values entity-encoded. -/
def dumpAttrs : List (List Char × List Char) → List Char
  | [] => []
  | (k, v) :: rest => ' ' :: (k ++ '=' :: '"' :: (encodeText v ++ '"' :: dumpAttrs rest))

mutual

/-- `dump_recursive`: a node with empty text and no children is
self-closing; otherwise the open tag, a newline only when pretty AND
there are children, the text (indented and newline-terminated only in
that same case), the children at the next indent level, and the closing
tag (indented only when pretty and there are children). -/
def Node.dumpRec : Node → Bool → Nat → Nat → List Char
  | ⟨nm, txt, attrs, kids⟩, pretty, lvl, isz =>
    let ind := if pretty then spacesL (lvl * isz) else []
    let head := ind ++ '<' :: (nm ++ dumpAttrs attrs)
    if txt.isEmpty && kids.isEmpty then
      head ++ ' ' :: '/' :: '>' :: (if pretty then ['\n'] else [])
    else
      let hc := !kids.isEmpty
      head ++ '>' :: ((if pretty && hc then ['\n'] else [])
        ++ (if !txt.isEmpty then
              (if pretty && hc then spacesL ((lvl + 1) * isz) else [])
                ++ encodeText txt ++ (if pretty && hc then ['\n'] else [])
            else [])
        ++ dumpKids kids pretty (lvl + 1) isz
        ++ (if pretty && hc then ind else [])
        ++ '<' :: '/' :: (nm ++ '>' :: (if pretty then ['\n'] else [])))

/-- The child loop of `dump_recursive`. -/
def dumpKids : List Node → Bool → Nat → Nat → List Char
  | [], _, _, _ => []
  | k :: ks, pretty, lvl, isz => Node.dumpRec k pretty lvl isz ++ dumpKids ks pretty lvl isz

end

/-! ### XML child access (`Node::operator[]`) -/

/-- The search-or-append loop of the mutable `operator[]`: scan the
children in order; at the first child with the given name stop and
return its position; at the end append a brand-new empty node with that
name.  The result is the (possibly extended) child list and the
position of the node the C++ reference points at. -/
def bracketMutGo (k : List Char) : List Node → List Node × Nat
  | [] => ([⟨k, [], [], []⟩], 0)
  | c :: cs =>
    if c.name = k then (c :: cs, 0)
    else
      let r := bracketMutGo k cs
      (c :: r.1, r.2 + 1)

/-- The mutable `operator[]`: updated node plus the index of the returned
child reference. -/
def Node.bracketMut (n : Node) (k : List Char) : Node × Nat :=
  let r := bracketMutGo k n.child_nodes
  ({ n with child_nodes := r.1 }, r.2)

/-- The search loop of the const `operator[]`: first child with the given
name, or an error. -/
def bracketConstGo (k : List Char) : List Node → Except String Node
  | [] => .error "Child node not found"
  | c :: cs => if c.name = k then .ok c else bracketConstGo k cs

/-- The const `operator[]`. -/
def Node.bracketConst (n : Node) (k : List Char) : Except String Node :=
  bracketConstGo k n.child_nodes

/-- First index of a child with the given name, if any (specification
helper for the theorems about `operator[]`). -/
def findNamed (k : List Char) : List Node → Option Nat
  | [] => none
  | c :: cs =>
    if c.name = k then some 0
    else (findNamed k cs).map (· + 1)

/-- Whether a modelled call returned normally (did not throw). -/
def isOkE {α : Type} : Except String α → Bool
  | .ok _ => true
  | .error _ => false

/-! ### Supporting lemmas -/

theorem dropWhile_len_le {α : Type} (p : α → Bool) :
    ∀ l : List α, (l.dropWhile p).length ≤ l.length := by
  intro l
  induction l with
  | nil => simp [List.dropWhile]
  | cons a l ih =>
    rw [List.dropWhile_cons]
    split
    · exact Nat.le_trans ih (Nat.le_succ _)
    · exact Nat.le_refl _

theorem lexLt_trans : ∀ (a b c : List Char),
    lexLt a b = true → lexLt b c = true → lexLt a c = true := by
  intro a
  induction a with
  | nil =>
    intro b c hab hbc
    cases b with
    | nil => simp [lexLt] at hab
    | cons b0 bs =>
      cases c with
      | nil => simp [lexLt] at hbc
      | cons c0 cs => simp [lexLt]
  | cons a0 as ih =>
    intro b c hab hbc
    cases b with
    | nil => simp [lexLt] at hab
    | cons b0 bs =>
      cases c with
      | nil => simp [lexLt] at hbc
      | cons c0 cs =>
        simp only [lexLt] at hab hbc ⊢
        rcases Nat.lt_trichotomy a0.toNat b0.toNat with h1 | h1 | h1
        · rcases Nat.lt_trichotomy b0.toNat c0.toNat with h2 | h2 | h2
          · simp [Nat.lt_trans h1 h2]
          · rw [h2] at h1
            simp [h1]
          · simp [Nat.lt_asymm h2, h2] at hbc
        · rw [h1] at hab ⊢
          simp only [Nat.lt_irrefl, if_false] at hab
          rcases Nat.lt_trichotomy b0.toNat c0.toNat with h2 | h2 | h2
          · simp [h2]
          · rw [h2] at hbc ⊢
            simp only [Nat.lt_irrefl, if_false] at hbc ⊢
            exact ih bs cs hab hbc
          · simp [Nat.lt_asymm h2, h2] at hbc
        · simp [Nat.lt_asymm h1, h1] at hab

theorem mapInsert_mem_keys {α : Type} (key : List Char) (val : α) :
    ∀ (l : List (List Char × α)) (x : List Char × α),
      x ∈ mapInsert key val l → x.1 = key ∨ x.1 ∈ l.map Prod.fst := by
  intro l
  induction l with
  | nil =>
    intro x hx
    simp only [mapInsert, List.mem_singleton] at hx
    left
    rw [hx]
  | cons e rest ih =>
    intro x hx
    obtain ⟨k, v⟩ := e
    simp only [mapInsert] at hx
    split at hx
    · rcases List.mem_cons.mp hx with h | h
      · left; rw [h]
      · right
        rw [List.map_cons]
        rcases List.mem_cons.mp h with h2 | h2
        · exact List.mem_cons.mpr (Or.inl (by rw [h2]))
        · exact List.mem_cons.mpr (Or.inr (List.mem_map_of_mem Prod.fst h2))
    · split at hx
      · rcases List.mem_cons.mp hx with h | h
        · right
          rw [List.map_cons]
          exact List.mem_cons.mpr (Or.inl (by rw [h]))
        · rcases ih x h with h2 | h2
          · left; exact h2
          · right
            rw [List.map_cons]
            exact List.mem_cons.mpr (Or.inr h2)
      · rcases List.mem_cons.mp hx with h | h
        · right
          rw [List.map_cons]
          exact List.mem_cons.mpr (Or.inl (by rw [h]))
        · right
          rw [List.map_cons]
          exact List.mem_cons.mpr (Or.inr (List.mem_map_of_mem Prod.fst h))

theorem mapInsert_sorted {α : Type} (key : List Char) (val : α) :
    ∀ {l : List (List Char × α)}, SortedKeys l → SortedKeys (mapInsert key val l) := by
  intro l
  induction l with
  | nil =>
    intro _
    simp [mapInsert, SortedKeys]
  | cons e rest ih =>
    intro hs
    obtain ⟨k, v⟩ := e
    rw [SortedKeys, List.pairwise_cons] at hs
    obtain ⟨hall, hrest⟩ := hs
    simp only [mapInsert]
    split
    · rename_i hlt
      rw [SortedKeys, List.pairwise_cons]
      refine ⟨?_, List.pairwise_cons.mpr ⟨hall, hrest⟩⟩
      intro y hy
      rcases List.mem_cons.mp hy with h | h
      · rw [h]; exact hlt
      · exact lexLt_trans _ _ _ hlt (hall y h)
    · split
      · rename_i hgt
        rw [SortedKeys, List.pairwise_cons]
        refine ⟨?_, ih hrest⟩
        intro y hy
        rcases mapInsert_mem_keys key val rest y hy with h | h
        · rw [h]; exact hgt
        · obtain ⟨z, hz, hzy⟩ := List.mem_map.mp h
          rw [← hzy]
          exact hall z hz
      · rw [SortedKeys, List.pairwise_cons]
        exact ⟨hall, hrest⟩


theorem identContC_of_head (c : Char) (h : isAlphaC c = true ∨ c = '_') :
    identContC c = true := by
  rcases h with h | h
  · simp [identContC, isAlnumC, h]
  · simp [identContC, h]

theorem atPathGo_ok_of_pathOK : ∀ (f : Nat) (cs : List Char) (v : JSON),
    cs.length < f → pathOKGo f cs = true → isOkE (atPathGo f v cs) = true := by
  intro f
  induction f with
  | zero =>
    intro cs v h _
    exact absurd h (Nat.not_lt_zero _)
  | succ f ih =>
    intro cs v hlen hok
    cases cs with
    | nil => rfl
    | cons c rest =>
      have hrest : rest.length < f := by
        simp [List.length_cons] at hlen
        omega
      simp only [pathOKGo] at hok
      simp only [atPathGo]
      by_cases hdot : c = '.'
      · rw [if_pos hdot] at hok ⊢
        exact ih rest v hrest hok
      · rw [if_neg hdot] at hok ⊢
        by_cases hid : isAlphaC c = true ∨ c = '_'
        · rw [if_pos hid] at hok ⊢
          have hdw : ((c :: rest).dropWhile identContC).length < f := by
            rw [List.dropWhile_cons_of_pos (identContC_of_head c hid)]
            exact Nat.lt_of_le_of_lt (dropWhile_len_le identContC rest) hrest
          split
          · split
            · exact ih _ _ hdw hok
            · rfl
          · rfl
        · rw [if_neg hid] at hok ⊢
          by_cases hbr : c = '['
          · rw [if_pos hbr] at hok ⊢
            split at hok
            · rename_i rest1 heq
              simp only [Bool.and_eq_true] at hok
              obtain ⟨⟨h3, h4⟩, h2⟩ := hok
              have hrest1 : rest1.length < f := by
                have h5 := dropWhile_len_le isDigitC rest
                rw [heq] at h5
                simp [List.length_cons] at h5
                omega
              have hstoi : stoiDec (rest.takeWhile isDigitC)
                  = Except.ok (digitsVal (rest.takeWhile isDigitC)) := by
                rw [stoiDec]
                rw [if_neg (by simp at h3; simp [h3])]
                rw [if_neg (by simp at h4; omega)]
              rw [hstoi]
              split
              · rename_i a hbad
                exact Except.noConfusion hbad
              · rename_i lo hlo
                injection hlo with hlo2
                subst hlo2
                split
                · split
                  · exact ih rest1 _ hrest1 h2
                  · rfl
                · rfl
            · simp at hok
          · rw [if_neg hbr] at hok
            simp at hok

theorem atPathGo_error_of_firstSegBad : ∀ (f : Nat) (cs : List Char) (v : JSON),
    cs.length < f → firstSegBad cs = true → isOkE (atPathGo f v cs) = false := by
  intro f
  induction f with
  | zero =>
    intro cs v h _
    exact absurd h (Nat.not_lt_zero _)
  | succ f ih =>
    intro cs v hlen hbad
    cases cs with
    | nil => simp [firstSegBad] at hbad
    | cons c rest =>
      have hrest : rest.length < f := by
        simp [List.length_cons] at hlen
        omega
      simp only [firstSegBad] at hbad
      simp only [atPathGo]
      by_cases hdot : c = '.'
      · rw [if_pos hdot] at hbad ⊢
        exact ih rest v hrest hbad
      · rw [if_neg hdot] at hbad ⊢
        by_cases hid : isAlphaC c = true ∨ c = '_'
        · rw [if_pos hid] at hbad
          simp at hbad
        · rw [if_neg hid] at hbad ⊢
          by_cases hbr : c = '['
          · rw [if_pos hbr] at hbad ⊢
            split
            · rename_i rest1 heq
              rw [heq] at hbad
              simp only [] at hbad
              have hempty : (rest.takeWhile isDigitC).isEmpty = true := by
                simpa using hbad
              have hstoi : stoiDec (rest.takeWhile isDigitC)
                  = Except.error "stoi: invalid argument" := by
                rw [stoiDec, if_pos hempty]
              rw [hstoi]
              rfl
            · rfl
          · rw [if_neg hbr]
            rfl

theorem dumpObjGo_false_eq (ind isz prec : Nat) :
    ∀ kvs : List (List Char × JSON),
      dumpObjGo false kvs false ind isz prec
        = joinComma (kvs.map fun e =>
            '"' :: (e.1 ++ '"' :: ':' :: JSON.dump e.2 false (ind + isz) isz prec)) := by
  intro kvs
  induction kvs with
  | nil => rfl
  | cons e rest ih =>
    obtain ⟨k, v⟩ := e
    simp only [dumpObjGo, joinComma, List.map_cons, ih]
    simp [List.append_assoc]

theorem dumpObj_commaSep (kvs : List (List Char × JSON)) (ind isz prec : Nat) :
    JSON.dump (JSON.obj kvs) false ind isz prec
      = '{' :: (commaSep (kvs.map fun e =>
          '"' :: (e.1 ++ '"' :: ':' :: JSON.dump e.2 false (ind + isz) isz prec)) ++ ['}']) := by
  cases kvs with
  | nil => rfl
  | cons e rest =>
    obtain ⟨k, v⟩ := e
    simp only [JSON.dump, dumpObjGo, commaSep, List.map_cons, dumpObjGo_false_eq]
    simp [List.append_assoc]

theorem dumpAttrs_flat : ∀ l : List (List Char × List Char),
    dumpAttrs l = (l.map fun a =>
      ' ' :: (a.1 ++ '=' :: '"' :: (encodeText a.2 ++ ['"']))).flatten := by
  intro l
  induction l with
  | nil => rfl
  | cons a rest ih =>
    obtain ⟨k, v⟩ := a
    simp [dumpAttrs, ih]

theorem parseContentF_runs : ∀ (f : Nat) (txt : List Char) (kids : List Node)
    (run rest : List Char) (out : (List Char × List Node) × List Char),
    parseContentF f txt kids run rest = Except.ok out →
    ∃ (runs : List (List Char)) (nk : List Node),
      out.1.1 = txt ++ (runs.map decodeText).flatten ∧ out.1.2 = kids ++ nk := by
  intro f
  induction f with
  | zero =>
    intro txt kids run rest out h
    exact absurd h (by simp [parseContentF])
  | succ f ih =>
    intro txt kids run rest out h
    simp only [parseContentF] at h
    split at h
    · injection h with h2
      subst h2
      by_cases hre : (run ++ rest.takeWhile isSpaceC).isEmpty = true
      · exact ⟨[], [], by simp [flushRun, hre], by simp⟩
      · refine ⟨[run ++ rest.takeWhile isSpaceC], [], ?_, by simp⟩
        simp [flushRun, hre]
    · split at h
      · exact Except.noConfusion h
      · rename_i child r2 heq2
        obtain ⟨runs2, nk2, h1, h2⟩ := ih _ _ _ _ _ h
        by_cases hre : (run ++ rest.takeWhile isSpaceC).isEmpty = true
        · refine ⟨runs2, child :: nk2, ?_, ?_⟩
          · rw [h1]
            simp [flushRun, hre]
          · rw [h2]
            simp
        · refine ⟨(run ++ rest.takeWhile isSpaceC) :: runs2, child :: nk2, ?_, ?_⟩
          · rw [h1]
            simp [flushRun, hre, List.append_assoc]
          · rw [h2]
            simp
    · exact ih _ _ _ _ _ h
    · injection h with h2
      subst h2
      by_cases hre : (run ++ rest.takeWhile isSpaceC).isEmpty = true
      · exact ⟨[], [], by simp [flushRun, hre], by simp⟩
      · refine ⟨[run ++ rest.takeWhile isSpaceC], [], ?_, by simp⟩
        simp [flushRun, hre]

theorem bracketMutGo_eq : ∀ (k : List Char) (l : List Node),
    (∀ i, findNamed k l = some i →
        bracketMutGo k l = (l, i)
        ∧ (∃ c, l.get? i = some c ∧ c.name = k)
        ∧ (∀ j cj, j < i → l.get? j = some cj → cj.name ≠ k))
    ∧ (findNamed k l = none →
        bracketMutGo k l = (l ++ [⟨k, [], [], []⟩], l.length)
        ∧ ∀ c ∈ l, c.name ≠ k) := by
  intro k l
  induction l with
  | nil =>
    constructor
    · intro i hi
      simp [findNamed] at hi
    · intro _
      refine ⟨by simp [bracketMutGo], ?_⟩
      intro c hc
      simp at hc
  | cons c0 cs ih =>
    by_cases hc : c0.name = k
    · constructor
      · intro i hi
        simp only [findNamed, if_pos hc] at hi
        injection hi with hi2
        subst hi2
        refine ⟨by simp [bracketMutGo, hc], ⟨c0, by simp, hc⟩, ?_⟩
        intro j cj hj hg
        omega
      · intro hnone
        simp [findNamed, hc] at hnone
    · obtain ⟨ihs, ihn⟩ := ih
      constructor
      · intro i hi
        simp only [findNamed, if_neg hc, Option.map_eq_some'] at hi
        obtain ⟨i0, hi0, rfl⟩ := hi
        obtain ⟨hmg, ⟨cfound, hcg, hcn⟩, hfirst⟩ := ihs i0 hi0
        refine ⟨?_, ⟨cfound, by simpa using hcg, hcn⟩, ?_⟩
        · simp [bracketMutGo, hc, hmg]
        · intro j cj hj hg
          cases j with
          | zero =>
            simp at hg
            rw [← hg]
            exact hc
          | succ j2 =>
            simp at hg
            exact hfirst j2 cj (by omega) (by rw [List.get?_eq_getElem?]; exact hg)
      · intro hnone
        simp only [findNamed, if_neg hc, Option.map_eq_none'] at hnone
        obtain ⟨heq, hall⟩ := ihn hnone
        refine ⟨by simp [bracketMutGo, hc, heq], ?_⟩
        intro c hc2
        rcases List.mem_cons.mp hc2 with h | h
        · rw [h]
          exact hc
        · exact hall c h

theorem bracketConstGo_error : ∀ (k : List Char) (l : List Node),
    (∀ c ∈ l, c.name ≠ k) → bracketConstGo k l = Except.error "Child node not found" := by
  intro k l
  induction l with
  | nil => intro _; rfl
  | cons c0 cs ih =>
    intro hall
    rw [bracketConstGo, if_neg (hall c0 (List.mem_cons_self c0 cs))]
    exact ih fun c hc => hall c (List.mem_cons_of_mem c0 hc)

/-! ### The claims -/

/-- C1: the spec claims `parse(dump(v, compact)) == v` for every
programmatically constructed value whose numbers are finite.  `dump`
emits object KEYS verbatim between quotes, without the escaping it
applies to string values, so the object with the single key `a"b` dumps
to the malformed text `{"a"b":null}`, which `parse` rejects: the code
fails the claimed round-trip at this value. -/
theorem c1_dump_unescaped_key_breaks_roundtrip :
    JSON.dump (JSON.obj [(['a', '"', 'b'], JSON.null)]) false 0 2 6 = "\x7b\"a\"b\":null\x7d".data
    ∧ JSON.parse "\x7b\"a\"b\":null\x7d" = Except.error "Expected ':' after key in object"
    ∧ JSON.parse (String.mk (JSON.dump (JSON.obj [(['a', '"', 'b'], JSON.null)]) false 0 2 6))
        ≠ Except.ok (JSON.obj [(['a', '"', 'b'], JSON.null)]) := by
  refine ⟨rfl, rfl, ?_⟩
  intro h
  rw [show JSON.parse (String.mk (JSON.dump (JSON.obj [(['a', '"', 'b'], JSON.null)]) false 0 2 6))
      = Except.error "Expected ':' after key in object" from rfl] at h
  exact Except.noConfusion h

/-- C2: parsing the literal `"\uD83D\uDE00"` combines the surrogate pair
into U+1F600 and yields the string whose bytes are its 4-byte UTF-8
encoding F0 9F 98 80; a lone high surrogate `"\uD800"` and a lone low
surrogate `"\uDC00"` are parse errors. -/
theorem c2_surrogate_pairs :
    JSON.parse "\"\\uD83D\\uDE00\""
      = Except.ok (JSON.str [Char.ofNat 0xF0, Char.ofNat 0x9F, Char.ofNat 0x98, Char.ofNat 0x80])
    ∧ surrogateCombine 0xD83D 0xDE00 = 0x1F600
    ∧ encodeUTF8 [] 0x1F600
      = [Char.ofNat 0xF0, Char.ofNat 0x9F, Char.ofNat 0x98, Char.ofNat 0x80]
    ∧ JSON.parse "\"\\uD800\"" = Except.error "Invalid unicode escape sequence"
    ∧ JSON.parse "\"\\uDC00\"" = Except.error "Invalid unicode escape sequence" :=
  ⟨rfl, rfl, rfl, rfl, rfl⟩

/-- C3: the number grammar is strict: `01` (leading zero), `1.` (no digit
after the point), `.5` (leading dot) and `1e` (empty exponent) are all
parse errors, while `-0`, `3.14` and `1e10` parse to Numbers. -/
theorem c3_strict_number_grammar :
    JSON.parse "01" = Except.error "Extra characters after JSON"
    ∧ JSON.parse "1." = Except.error "Invalid number: missing digits after decimal point"
    ∧ JSON.parse ".5" = Except.error "Unexpected character"
    ∧ JSON.parse "1e" = Except.error "Invalid number: missing digits in exponent"
    ∧ (∃ q, JSON.parse "-0" = Except.ok (JSON.number q))
    ∧ (∃ q, JSON.parse "3.14" = Except.ok (JSON.number q))
    ∧ (∃ q, JSON.parse "1e10" = Except.ok (JSON.number q)) :=
  ⟨rfl, rfl, rfl, rfl, ⟨_, rfl⟩, ⟨_, rfl⟩, ⟨_, rfl⟩⟩

/-- C4: starting from Null, `set_path("a.b[1]", x)` builds
`{a: {b: [null, x]}}` — an Object whose key `a` holds an Object whose key
`b` holds a length-2 Array with Null at index 0 — and `at_path("a.b[1]")`
on the result returns `x` (and `a.b[0]` returns the defaulted Null). -/
theorem c4_set_path_auto_vivify : ∀ x : JSON,
    JSON.setPath JSON.null "a.b[1]" x
      = Except.ok (JSON.obj [("a".data, JSON.obj [("b".data, JSON.arr [JSON.null, x])])])
    ∧ JSON.atPath (JSON.obj [("a".data, JSON.obj [("b".data, JSON.arr [JSON.null, x])])])
        "a.b[1]" = Except.ok x
    ∧ JSON.atPath (JSON.obj [("a".data, JSON.obj [("b".data, JSON.arr [JSON.null, x])])])
        "a.b[0]" = Except.ok JSON.null
    ∧ (JSON.obj [("a".data, JSON.obj [("b".data, JSON.arr [JSON.null, x])])]).keysL
        = ["a".data] :=
  fun _ => ⟨rfl, rfl, rfl, rfl⟩

/-- C4 witness at `x = true`. -/
theorem c4_witness :
    JSON.setPath JSON.null "a.b[1]" (JSON.bool true)
      = Except.ok (JSON.obj [("a".data,
          JSON.obj [("b".data, JSON.arr [JSON.null, JSON.bool true])])]) :=
  (c4_set_path_auto_vivify (JSON.bool true)).1

/-- C5 counterexample: the claim says malformed path syntax raises a hard
error regardless of the receiver, and that every syntactically
well-formed path never errors.  But `at_path` on a Null receiver with
the unterminated-bracket path `a[` returns Null without error (the miss
at segment `a` returns before the malformed rest is scanned), and the
well-formed path `[2147483648]` errors on every receiver because
`std::stoi` overflows `int`. -/
theorem c5_counter_miss_skips_malformed :
    JSON.atPath JSON.null "a[" = Except.ok JSON.null
    ∧ JSON.atPath JSON.null "[2147483648]" = Except.error "stoi: out of range" :=
  ⟨rfl, rfl⟩

/-- C5 (amended): for every receiver and well-formed path whose bracketed
indices fit `int`, `at_path` never errors (absent / out-of-range /
wrong-variant segments give Null, as the concrete conjuncts show); a
path whose first segment is malformed errors on every receiver; but a
malformed segment further along is reached, and its error raised, only
if no earlier segment misses. -/
theorem c5_amended_at_path_errors :
    (∀ (v : JSON) (p : String), pathOK p = true → isOkE (v.atPath p) = true)
    ∧ (∀ (v : JSON) (p : String), firstSegBad p.data = true → isOkE (v.atPath p) = false)
    ∧ JSON.atPath (JSON.obj [("a".data, JSON.bool true)]) "a.b" = Except.ok JSON.null
    ∧ JSON.atPath (JSON.arr [JSON.null]) "[5]" = Except.ok JSON.null
    ∧ JSON.atPath JSON.null "x" = Except.ok JSON.null := by
  refine ⟨?_, ?_, rfl, rfl, rfl⟩
  · intro v p h
    exact atPathGo_ok_of_pathOK _ _ v (Nat.lt_succ_self _) h
  · intro v p h
    exact atPathGo_error_of_firstSegBad _ _ v (Nat.lt_succ_self _) h

/-- C5 witness: a well-formed path never errors (here on a Null receiver),
and a first-segment-malformed path errors (here on a Bool receiver). -/
theorem c5_witness :
    isOkE (JSON.atPath JSON.null "a.b[0]") = true
    ∧ isOkE (JSON.atPath (JSON.bool true) "!x") = false :=
  ⟨c5_amended_at_path_errors.1 JSON.null "a.b[0]" rfl,
   c5_amended_at_path_errors.2.1 (JSON.bool true) "!x" rfl⟩

/-- C6: object keys (and XML attributes) are emitted in stored order, and
the store is kept sorted: compact `dump` of an object renders exactly
the stored entries, comma-separated in stored order; under the map
invariant the key sequence is strictly sorted; `map[k] = v` (the
primitive every object/attribute mutation uses) preserves the
invariant; and the XML attribute output is the stored (sorted) list in
order. -/
theorem c6_sorted_key_emission :
    (∀ (kvs : List (List Char × JSON)) (ind isz prec : Nat),
        JSON.dump (JSON.obj kvs) false ind isz prec
          = '{' :: (commaSep (kvs.map fun e =>
              '"' :: (e.1 ++ '"' :: ':' :: JSON.dump e.2 false (ind + isz) isz prec)) ++ ['}']))
    ∧ (∀ kvs : List (List Char × JSON), SortedKeys kvs →
        List.Pairwise (fun a b => lexLt a b = true) (JSON.obj kvs).keysL)
    ∧ (∀ (α : Type) (key : List Char) (val : α) (l : List (List Char × α)),
        SortedKeys l → SortedKeys (mapInsert key val l))
    ∧ (∀ attrs : List (List Char × List Char),
        dumpAttrs attrs = (attrs.map fun a =>
          ' ' :: (a.1 ++ '=' :: '"' :: (encodeText a.2 ++ ['"']))).flatten) := by
  refine ⟨dumpObj_commaSep, ?_, ?_, dumpAttrs_flat⟩
  · intro kvs h
    simp only [JSON.keysL]
    exact List.pairwise_map.mpr h
  · intro α key val l h
    exact mapInsert_sorted key val h

/-- C6 witness: sorted emission and insertion on a concrete two-entry
object. -/
theorem c6_witness :
    List.Pairwise (fun a b => lexLt a b = true)
      (JSON.obj [("a".data, JSON.null), ("b".data, JSON.bool true)]).keysL
    ∧ SortedKeys (mapInsert "c".data JSON.null
        [("a".data, JSON.null), ("b".data, JSON.bool true)])
    ∧ JSON.dump (JSON.obj [("a".data, JSON.null)]) false 0 2 6
        = '{' :: (commaSep [['"', 'a', '"', ':'] ++ "null".data] ++ ['}']) := by
  refine ⟨?_, ?_, ?_⟩
  · exact c6_sorted_key_emission.2.1 _
      (List.Pairwise.cons (by intro b hb; simp at hb; rw [hb]; rfl) (List.Pairwise.cons
        (by intro b hb; simp at hb) List.Pairwise.nil))
  · exact c6_sorted_key_emission.2.2.1 JSON "c".data JSON.null _
      (List.Pairwise.cons (by intro b hb; simp at hb; rw [hb]; rfl) (List.Pairwise.cons
        (by intro b hb; simp at hb) List.Pairwise.nil))
  · exact (c6_sorted_key_emission.1 [("a".data, JSON.null)] 0 2 6).trans rfl

/-- C7: every text run met while parsing a node content is appended,
entity-decoded, to the single text field in encounter order: whenever
the content loop returns, the accumulated text equals the prior text
followed by the concatenation of the decoded runs, and the children are
appended in order.  The position of the runs relative to the children
is not recorded: `<a>x<b/>y</a>` and `<a>xy<b/></a>` parse to the same
node with text `xy`, and entities in runs are decoded (`x&lt;y`). -/
theorem c7_text_runs_concatenated :
    (∀ (f : Nat) (txt : List Char) (kids : List Node) (run rest : List Char)
        (out : (List Char × List Node) × List Char),
        parseContentF f txt kids run rest = Except.ok out →
        ∃ (runs : List (List Char)) (nk : List Node),
          out.1.1 = txt ++ (runs.map decodeText).flatten ∧ out.1.2 = kids ++ nk)
    ∧ Node.parse "<a>x<b/>y</a>"
        = Except.ok ⟨"a".data, "xy".data, [], [⟨"b".data, [], [], []⟩]⟩
    ∧ Node.parse "<a>xy<b/></a>"
        = Except.ok ⟨"a".data, "xy".data, [], [⟨"b".data, [], [], []⟩]⟩
    ∧ Node.parse "<a>x&lt;y</a>" = Except.ok ⟨"a".data, "x<y".data, [], []⟩ :=
  ⟨parseContentF_runs, rfl, rfl, rfl⟩

/-- C7 witness: the loop lemma applied to the concrete content
`x<b/>y</a>` starting from empty text and children. -/
theorem c7_witness :
    ∃ (runs : List (List Char)) (nk : List Node),
      "xy".data = [] ++ (runs.map decodeText).flatten
      ∧ [Node.mk "b".data [] [] []] = [] ++ nk :=
  c7_text_runs_concatenated.1 30 [] [] [] "x<b/>y</a>".data
    (("xy".data, [Node.mk "b".data [] [] []]), "</a>".data) rfl

/-- C8 counterexample: the claim says that in pretty mode the open tag is
always followed by a newline and the text is indented, with the closing
tag at the parent's indent level.  A node with text but NO children
renders inline: `dump` of `<a>` with text `x` gives `<a>x</a>` plus a
final newline, not the claimed indented form. -/
theorem c8_counter_text_only_inline :
    Node.dumpRec ⟨"a".data, "x".data, [], []⟩ true 0 2 = "<a>x</a>\n".data
    ∧ "<a>x</a>\n".data ≠ "<a>\n  x\n</a>\n".data := by
  refine ⟨rfl, ?_⟩
  decide

/-- C8 (amended): a node with empty text and no children renders
self-closing; otherwise the open tag with the stored attributes, then a
newline ONLY when pretty and the node has children; the text, when
non-empty, indented one level and newline-terminated only in that same
case (inline after the open tag otherwise); then the children at
depth+1; then the closing tag, indented to the parent's level only when
pretty and children exist, newline-terminated when pretty. -/
theorem c8_amended_dump_format : ∀ (nm txt : List Char)
    (attrs : List (List Char × List Char)) (kids : List Node)
    (pretty : Bool) (lvl isz : Nat),
    ((txt.isEmpty && kids.isEmpty) = true →
      Node.dumpRec ⟨nm, txt, attrs, kids⟩ pretty lvl isz
        = (if pretty then spacesL (lvl * isz) else []) ++ '<' :: (nm ++ dumpAttrs attrs)
            ++ ' ' :: '/' :: '>' :: (if pretty then ['\n'] else []))
    ∧ ((txt.isEmpty && kids.isEmpty) = false →
      Node.dumpRec ⟨nm, txt, attrs, kids⟩ pretty lvl isz
        = (if pretty then spacesL (lvl * isz) else []) ++ '<' :: (nm ++ dumpAttrs attrs)
            ++ '>' :: ((if pretty && !kids.isEmpty then ['\n'] else [])
            ++ (if !txt.isEmpty then
                  (if pretty && !kids.isEmpty then spacesL ((lvl + 1) * isz) else [])
                    ++ encodeText txt ++ (if pretty && !kids.isEmpty then ['\n'] else [])
                else [])
            ++ dumpKids kids pretty (lvl + 1) isz
            ++ (if pretty && !kids.isEmpty then
                  (if pretty then spacesL (lvl * isz) else []) else [])
            ++ '<' :: '/' :: (nm ++ '>' :: (if pretty then ['\n'] else [])))) := by
  intro nm txt attrs kids pretty lvl isz
  constructor
  · intro h
    simp only [Node.dumpRec]
    rw [if_pos h]
  · intro h
    simp only [Node.dumpRec]
    rw [if_neg (by simp [h])]

/-- C8 witness: the self-closing and the inline text-only shapes at
concrete nodes. -/
theorem c8_witness :
    Node.dumpRec ⟨"br".data, [], [], []⟩ true 0 2 = "<br />\n".data
    ∧ Node.dumpRec ⟨"p".data, "hi".data, [], []⟩ true 0 2 = "<p>hi</p>\n".data := by
  constructor
  · exact ((c8_amended_dump_format "br".data [] [] [] true 0 2).1 rfl).trans rfl
  · exact ((c8_amended_dump_format "p".data "hi".data [] [] true 0 2).2 rfl).trans rfl

/-- C9: the mutable `operator[]` returns (a reference to) the FIRST child
named `k` and leaves the node unchanged when one exists; otherwise it
appends a brand-new empty node named `k` and returns its position, so a
read through it grows the tree; the const `operator[]` instead raises
an error when no child is named `k`. -/
theorem c9_bracket_accessor : ∀ (n : Node) (k : List Char),
    (∀ i, findNamed k n.child_nodes = some i →
        Node.bracketMut n k = (n, i)
        ∧ (∃ c, n.child_nodes.get? i = some c ∧ c.name = k)
        ∧ (∀ j cj, j < i → n.child_nodes.get? j = some cj → cj.name ≠ k))
    ∧ (findNamed k n.child_nodes = none →
        Node.bracketMut n k
          = ({ n with child_nodes := n.child_nodes ++ [⟨k, [], [], []⟩] },
             n.child_nodes.length)
        ∧ Node.bracketConst n k = Except.error "Child node not found") := by
  intro n k
  obtain ⟨nm, tx, ats, kids⟩ := n
  obtain ⟨hsome, hnone⟩ := bracketMutGo_eq k kids
  constructor
  · intro i hi
    obtain ⟨hm, hex, hfirst⟩ := hsome i hi
    refine ⟨?_, hex, hfirst⟩
    rw [Node.bracketMut, hm]
  · intro hn
    obtain ⟨hm, hall⟩ := hnone hn
    constructor
    · rw [Node.bracketMut, hm]
    · rw [Node.bracketConst]
      exact bracketConstGo_error k kids hall

/-- C9 witness: lookup of an existing child, creation of a missing one,
and the const error, on concrete nodes. -/
theorem c9_witness :
    Node.bracketMut ⟨"r".data, [], [], [⟨"a".data, [], [], []⟩]⟩ "a".data
      = (⟨"r".data, [], [], [⟨"a".data, [], [], []⟩]⟩, 0)
    ∧ Node.bracketMut ⟨"r".data, [], [], []⟩ "a".data
      = (⟨"r".data, [], [], [⟨"a".data, [], [], []⟩]⟩, 0)
    ∧ Node.bracketConst ⟨"r".data, [], [], []⟩ "a".data
      = Except.error "Child node not found" := by
  refine ⟨?_, ?_, ?_⟩
  · exact ((c9_bracket_accessor ⟨"r".data, [], [], [⟨"a".data, [], [], []⟩]⟩ "a".data).1 0 rfl).1
  · exact ((c9_bracket_accessor ⟨"r".data, [], [], []⟩ "a".data).2 rfl).1
  · exact ((c9_bracket_accessor ⟨"r".data, [], [], []⟩ "a".data).2 rfl).2

/-- C10: `has_path` is `!at_path(p).is_null()`: it returns true exactly
when `at_path` returns a non-Null value (and propagates `at_path`
errors).  A position that exists but stores Null — key `a` present and
bound to Null — therefore reports `false`, indistinguishable from the
absent key. -/
theorem c10_has_path_nonnull :
    (∀ (v : JSON) (p : String) (r : JSON),
        v.atPath p = Except.ok r → v.hasPath p = Except.ok (!r.isNullB))
    ∧ (∀ (v : JSON) (p : String) (e : String),
        v.atPath p = Except.error e → v.hasPath p = Except.error e)
    ∧ mapFind [("a".data, JSON.null)] "a".data = some JSON.null
    ∧ JSON.hasPath (JSON.obj [("a".data, JSON.null)]) "a" = Except.ok false
    ∧ JSON.hasPath (JSON.obj []) "a" = Except.ok false := by
  refine ⟨?_, ?_, rfl, rfl, rfl⟩
  · intro v p r h
    rw [JSON.hasPath, h]
  · intro v p e h
    rw [JSON.hasPath, h]

/-- C10 witness: non-Null stored value gives true; a malformed path's
error propagates through `has_path`. -/
theorem c10_witness :
    JSON.hasPath (JSON.obj [("a".data, JSON.bool true)]) "a" = Except.ok true
    ∧ JSON.hasPath JSON.null "[" = Except.error "Expected closing bracket" :=
  ⟨c10_has_path_nonnull.1 (JSON.obj [("a".data, JSON.bool true)]) "a" (JSON.bool true) rfl,
   c10_has_path_nonnull.2.1 JSON.null "[" "Expected closing bracket" rfl⟩
